import Mathlib

/-!
Verification of the Weeklypedia activity-classification and resilient-generation
pipeline (weekly-update-assistant).  The TypeScript sources under
`src/ai-agent/` and `src/app/api/analyze/` are shallowly embedded: strings are
lists of characters, the generation backend is an oracle giving the reply of
the k-th model call, and thrown exceptions are `Except` values; try/catch
blocks become explicit recovery matches.
-/

/- ## Character-list string primitives (JS string operations) -/

/-- Characters of a string literal; the whole embedding works over `List Char`. -/
def istr (s : String) : List Char := s.data

/-- JS `String.prototype.toLowerCase` (character-wise lowering). -/
def toLowerL (l : List Char) : List Char := l.map Char.toLower

/-- JS `String.prototype.trim`: strip leading and trailing whitespace. -/
def trimL (l : List Char) : List Char :=
  ((l.dropWhile Char.isWhitespace).reverse.dropWhile Char.isWhitespace).reverse

/-- Does `l` start with `p`? (JS `startsWith`). -/
def startsWithL (l p : List Char) : Bool :=
  match l, p with
  | _, [] => true
  | [], _ :: _ => false
  | c :: cs, d :: ds => c == d && startsWithL cs ds

/-- JS `String.prototype.includes`: does `needle` occur inside `hay`? -/
def containsSub (hay needle : List Char) : Bool :=
  match hay with
  | [] => startsWithL [] needle
  | _ :: t => startsWithL hay needle || containsSub t needle

/- ## The closed taxonomy (ai-agent/types.ts `ActivityCategory`) -/

/-- The fixed 8-member category taxonomy. -/
inductive ActivityCategory where
  | feature | fix | refactor | docs | test | chore | performance | security
deriving DecidableEq, Repr

/-- The `validCategories` list of `Categorizer.classifyActivity`. -/
def validCategories : List ActivityCategory :=
  [.feature, .fix, .refactor, .docs, .test, .chore, .performance, .security]

/-- The `validCategories.includes(classification)` check plus the cast: interpret
the (trimmed, lowercased) model reply as a taxonomy member. -/
def parseCategory (l : List Char) : Option ActivityCategory :=
  if l = istr "feature" then some .feature
  else if l = istr "fix" then some .fix
  else if l = istr "refactor" then some .refactor
  else if l = istr "docs" then some .docs
  else if l = istr "test" then some .test
  else if l = istr "chore" then some .chore
  else if l = istr "performance" then some .performance
  else if l = istr "security" then some .security
  else none

/-- Categorizer.fallbackClassification: ordered keyword rule list, first match
wins, default `chore`. -/
def fallbackClassification (activity : List Char) : ActivityCategory :=
  let text := toLowerL activity
  if containsSub text (istr "add") || containsSub text (istr "implement") ||
     containsSub text (istr "create") || containsSub text (istr "new") ||
     containsSub text (istr "feature") || containsSub text (istr "enhance") then .feature
  else if containsSub text (istr "fix") || containsSub text (istr "bug") ||
     containsSub text (istr "error") || containsSub text (istr "issue") ||
     containsSub text (istr "resolve") || containsSub text (istr "correct") then .fix
  else if containsSub text (istr "refactor") || containsSub text (istr "clean") ||
     containsSub text (istr "improve") || containsSub text (istr "optimize") ||
     containsSub text (istr "restructure") || containsSub text (istr "update") then .refactor
  else if containsSub text (istr "doc") || containsSub text (istr "readme") ||
     containsSub text (istr "comment") || containsSub text (istr "documentation") then .docs
  else if containsSub text (istr "test") || containsSub text (istr "spec") ||
     containsSub text (istr "unit") || containsSub text (istr "integration") then .test
  else if containsSub text (istr "performance") || containsSub text (istr "speed") ||
     containsSub text (istr "cache") || containsSub text (istr "memory") then .performance
  else if containsSub text (istr "security") || containsSub text (istr "auth") ||
     containsSub text (istr "permission") || containsSub text (istr "vulnerability") then .security
  else .chore

/-- Categorizer.assessImpact: keyword-and-category-driven impact heuristic. -/
def assessImpact (activity : List Char) (category : ActivityCategory) :
    String :=
  let text := toLowerL activity
  if containsSub text (istr "major") || containsSub text (istr "significant") ||
     containsSub text (istr "breaking") || containsSub text (istr "critical") ||
     containsSub text (istr "important") || containsSub text (istr "milestone") ||
     category = .security || category = .performance then "high"
  else if containsSub text (istr "improve") || containsSub text (istr "enhance") ||
     containsSub text (istr "optimize") || containsSub text (istr "feature") ||
     category = .feature || category = .fix then "medium"
  else "low"

/- ## Description cleaning (categorizer / summarizer) -/

/-- Strip a leading case-insensitive `tag:` (one of the alternatives) followed
by any whitespace: the `replace(/^(...):\s*`/i, "")` steps.  At most one
alternative can match at the anchor, so trying them in order is faithful. -/
def stripTagL (tags : List (List Char)) (l : List Char) : List Char :=
  match tags with
  | [] => l
  | t :: ts =>
    if startsWithL (toLowerL l) (t ++ [':']) then
      (l.drop (t.length + 1)).dropWhile Char.isWhitespace
    else stripTagL ts l

/-- Alternatives of the technical-tag regex `feat|fix|refactor|docs|test|chore|style|perf|security`. -/
def techTags : List (List Char) :=
  [istr "feat", istr "fix", istr "refactor", istr "docs", istr "test",
   istr "chore", istr "style", istr "perf", istr "security"]

/-- Alternatives of the action-tag regex `add|implement|create|update|fix|remove|delete`. -/
def actionTags : List (List Char) :=
  [istr "add", istr "implement", istr "create", istr "update", istr "fix",
   istr "remove", istr "delete"]

/-- Strip a leading `PR #<digits>:` and following whitespace
(`replace(/^PR #\d+:\s*`/, "")`). -/
def stripPRTag (l : List Char) : List Char :=
  if startsWithL l (istr "PR #") then
    let rest := l.drop 4
    let digits := rest.takeWhile Char.isDigit
    let rest2 := rest.drop digits.length
    if digits.length > 0 && startsWithL rest2 [':'] then
      (rest2.drop 1).dropWhile Char.isWhitespace
    else l
  else l

/-- JS `charAt(0).toUpperCase() + slice(1)`: on the empty string this is a
no-op (charAt of an empty string is the empty string). -/
def capitalizeL (l : List Char) : List Char :=
  match l with
  | [] => []
  | c :: cs => c.toUpper :: cs

/-- Does the text already end with `.`, `!` or `?`  (the three endsWith checks). -/
def endsPunct (l : List Char) : Bool :=
  match l.getLast? with
  | some c => c == '.' || c == '!' || c == '?'
  | none => false

/-- Categorizer.createBusinessDescription: strip technical and action tags,
trim, capitalize, ensure terminal punctuation.  The `category` parameter is
accepted but unused by the source body. -/
def createBusinessDescription (activity : List Char) (_category : ActivityCategory) :
    List Char :=
  let description := trimL (stripTagL actionTags (stripTagL techTags activity))
  let description := capitalizeL description
  if endsPunct description then description else description ++ ['.']

/-- Summarizer.cleanActivityDescription: strip technical tags and a `PR #N:`
marker, trim, capitalize, ensure terminal punctuation. -/
def cleanActivityDescription (activity : List Char) : List Char :=
  let cleaned := trimL (stripPRTag (stripTagL techTags activity))
  let cleaned := capitalizeL cleaned
  if endsPunct cleaned then cleaned else cleaned ++ ['.']

/- ## The generation backend and call-counting computations -/

/-- Result of one `generateContent` call: the promise rejected, or the reply text. -/
abbrev ModelReply := Except Unit (List Char)

/-- The generation backend: reply of the k-th model call of the run. -/
abbrev Oracle := Nat → ModelReply

/-- Call-counting fallible computation: from the index of the next model call,
an outcome (value or thrown exception) and the next call index. -/
def M (α : Type) : Type := Nat → Except Unit α × Nat

/-- Pure result, no model call, no exception. -/
def M.pure {α : Type} (a : α) : M α := fun k => (.ok a, k)

/-- Sequencing; a thrown exception short-circuits. -/
def M.bind {α β : Type} (x : M α) (f : α → M β) : M β := fun k =>
  match x k with
  | (.ok a, k') => f a k'
  | (.error e, k') => (.error e, k')

/-- try/catch: run the body; when it throws, run the handler from the state
the body reached. -/
def M.attempt {α : Type} (body handler : M α) : M α := fun k =>
  match body k with
  | (.ok a, k') => (.ok a, k')
  | (.error _, k') => handler k'

/-- A thrown exception (`throw new Error(...)`; the message is irrelevant here). -/
def M.throw {α : Type} : M α := fun k => (.error (), k)

/-- One `await this.model.generateContent(...)` (where the source routes it
through the rate limiter, the limiter delays but never alters or drops the
call, so the reply is still the oracle's). -/
def modelCall (o : Oracle) : M (List Char) := fun k => (o k, k + 1)

/-- Categorizer.classifyActivity: one model call, validate the label against
the taxonomy, keyword fallback on an invalid label or any thrown error. -/
def classifyActivity (o : Oracle) (activity : List Char) : M ActivityCategory :=
  M.attempt
    (M.bind (modelCall o) (fun resp =>
      match parseCategory (toLowerL (trimL resp)) with
      | some c => M.pure c
      | none => M.pure (fallbackClassification activity)))
    (M.pure (fallbackClassification activity))

/- ## Theorems: C1 and C10 -/

/-- Every category is in the `validCategories` list. -/
theorem mem_validCategories (c : ActivityCategory) : c ∈ validCategories := by
  cases c <;> simp [validCategories]

/-- C1: for every activity string and every backend behaviour,
`classifyActivity` returns (never throws) a member of the fixed 8-category
taxonomy; when the model call errors, or when the returned label is outside
the taxonomy, the result is exactly the deterministic keyword fallback. -/
theorem classifyActivity_total_in_taxonomy (o : Oracle) (a : List Char) (k : Nat) :
    (∃ c k', classifyActivity o a k = (Except.ok c, k') ∧ c ∈ validCategories) ∧
    (o k = Except.error () →
      classifyActivity o a k = (Except.ok (fallbackClassification a), k + 1)) ∧
    (∀ r, o k = Except.ok r → parseCategory (toLowerL (trimL r)) = none →
      classifyActivity o a k = (Except.ok (fallbackClassification a), k + 1)) := by
  refine ⟨?_, ?_, ?_⟩
  · cases h : o k with
    | error e =>
      exact ⟨fallbackClassification a, k + 1, by
        simp [classifyActivity, M.attempt, M.bind, M.pure, modelCall, h],
        mem_validCategories _⟩
    | ok r =>
      cases hp : parseCategory (toLowerL (trimL r)) with
      | none =>
        exact ⟨fallbackClassification a, k + 1, by
          simp [classifyActivity, M.attempt, M.bind, M.pure, modelCall, h, hp],
          mem_validCategories _⟩
      | some c =>
        exact ⟨c, k + 1, by
          simp [classifyActivity, M.attempt, M.bind, M.pure, modelCall, h, hp],
          mem_validCategories _⟩
  · intro h
    simp [classifyActivity, M.attempt, M.bind, M.pure, modelCall, h]
  · intro r h hp
    simp [classifyActivity, M.attempt, M.bind, M.pure, modelCall, h, hp]

/-- Witness for C1: with a backend that always throws, a concrete activity is
classified by the keyword fallback (here: the refactor rule fires). -/
theorem classifyActivity_total_in_taxonomy_w :
    classifyActivity (fun _ => Except.error ()) (istr "refactor cleanup") 0
      = (Except.ok ActivityCategory.refactor, 1) := by
  have h :=
    (classifyActivity_total_in_taxonomy (fun _ => Except.error ())
      (istr "refactor cleanup") 0).2.1 rfl
  have hf : fallbackClassification (istr "refactor cleanup")
      = ActivityCategory.refactor := by decide
  rw [h, hf]

/-- C10: on the empty activity string both cleaning operations return exactly
the one-character string "."; the capitalization step is a no-op on the empty
string and the punctuation step appends the period. -/
theorem clean_empty_is_period (c : ActivityCategory) :
    createBusinessDescription (istr "") c = istr "." ∧
    cleanActivityDescription (istr "") = istr "." ∧
    capitalizeL (istr "") = istr "" ∧ endsPunct (istr "") = false := by
  exact ⟨rfl, rfl, rfl, rfl⟩

/- ## Categorized activities, grouping and the summary buckets -/

/-- One classified activity (ai-agent/types.ts `CategorizedActivity`). -/
structure CategorizedActivity where
  category : ActivityCategory
  description : List Char
  impact : String
  source : String
  originalText : List Char
deriving DecidableEq, Repr

/-- Categorizer.classifyActivities: sequential per-item classification; each
item is enriched with impact and business description.  The per-item catch of
the source is unreachable here because `classifyActivity` never throws and the
enrichment helpers are pure. -/
def classifyActivities (o : Oracle) (activities : List (List Char))
    (source : String) : M (List CategorizedActivity) :=
  match activities with
  | [] => M.pure []
  | a :: rest =>
    M.bind (classifyActivity o a) (fun category =>
      M.bind (classifyActivities o rest source) (fun tail =>
        M.pure ({ category := category,
                  description := createBusinessDescription a category,
                  impact := assessImpact a category,
                  source := source,
                  originalText := a } :: tail)))

/-- The `Record<ActivityCategory, CategorizedActivity[]>` of groupByCategory. -/
structure Grouped where
  feature : List CategorizedActivity
  fix : List CategorizedActivity
  refactor : List CategorizedActivity
  docs : List CategorizedActivity
  test : List CategorizedActivity
  chore : List CategorizedActivity
  performance : List CategorizedActivity
  security : List CategorizedActivity
deriving DecidableEq, Repr

/-- The record literal with eight empty buckets. -/
def emptyGrouped : Grouped := ⟨[], [], [], [], [], [], [], []⟩

/-- One `grouped[activity.category].push(activity)`. -/
def pushCat (g : Grouped) (a : CategorizedActivity) : Grouped :=
  match a.category with
  | .feature => { g with feature := g.feature ++ [a] }
  | .fix => { g with fix := g.fix ++ [a] }
  | .refactor => { g with refactor := g.refactor ++ [a] }
  | .docs => { g with docs := g.docs ++ [a] }
  | .test => { g with test := g.test ++ [a] }
  | .chore => { g with chore := g.chore ++ [a] }
  | .performance => { g with performance := g.performance ++ [a] }
  | .security => { g with security := g.security ++ [a] }

/-- Categorizer.groupByCategory: start from eight empty buckets and push each
activity into its category's bucket, in input order. -/
def groupByCategory (activities : List CategorizedActivity) : Grouped :=
  activities.foldl pushCat emptyGrouped

/-- Read one bucket of the record. -/
def bucketOf (g : Grouped) : ActivityCategory → List CategorizedActivity
  | .feature => g.feature
  | .fix => g.fix
  | .refactor => g.refactor
  | .docs => g.docs
  | .test => g.test
  | .chore => g.chore
  | .performance => g.performance
  | .security => g.security

/-- All eight buckets, concatenated in field order. -/
def flattenGrouped (g : Grouped) : List CategorizedActivity :=
  g.feature ++ g.fix ++ g.refactor ++ g.docs ++ g.test ++ g.chore ++
    g.performance ++ g.security

/-- The three WeeklySummary buckets produced by the categorizer. -/
structure SummaryBuckets where
  Features : List (List Char)
  Fixes : List (List Char)
  Refactors : List (List Char)
deriving DecidableEq, Repr

/-- Categorizer.mapToWeeklySummaryCategories: the fixed category-to-bucket
mapping over the grouped record. -/
def mapToWeeklySummaryCategories (g : Grouped) : SummaryBuckets where
  Features := g.feature.map (fun a => a.description) ++
    g.performance.map (fun a => a.description) ++
    g.security.map (fun a => a.description)
  Fixes := g.fix.map (fun a => a.description)
  Refactors := g.refactor.map (fun a => a.description) ++
    g.docs.map (fun a => a.description) ++
    g.test.map (fun a => a.description) ++
    g.chore.map (fun a => a.description)

/- ## Grouping lemmas -/

/-- Pushing an activity extends exactly the bucket of its category, at the end. -/
theorem bucketOf_pushCat (g : Grouped) (a : CategorizedActivity)
    (c : ActivityCategory) :
    bucketOf (pushCat g a) c =
      if a.category = c then bucketOf g c ++ [a] else bucketOf g c := by
  cases ha : a.category <;> cases c <;> simp [pushCat, bucketOf, ha]

/-- Accumulator-generalized bucket characterization of the grouping fold. -/
theorem bucketOf_foldl_pushCat (as : List CategorizedActivity) (g : Grouped)
    (c : ActivityCategory) :
    bucketOf (as.foldl pushCat g) c =
      bucketOf g c ++ as.filter (fun a => decide (a.category = c)) := by
  induction as generalizing g with
  | nil => simp
  | cons a rest ih =>
    rw [List.foldl_cons, ih, List.filter_cons, bucketOf_pushCat]
    by_cases h : a.category = c <;> simp [h]

/-- Each bucket of `groupByCategory` is the input filtered to that category,
in input order. -/
theorem bucketOf_groupByCategory (as : List CategorizedActivity)
    (c : ActivityCategory) :
    bucketOf (groupByCategory as) c =
      as.filter (fun a => decide (a.category = c)) := by
  rw [groupByCategory, bucketOf_foldl_pushCat]
  cases c <;> simp [bucketOf, emptyGrouped]

/-- Shorthand for the one-category filter. -/
def catFilter (c : ActivityCategory) (as : List CategorizedActivity) :
    List CategorizedActivity :=
  as.filter (fun a => decide (a.category = c))

/-- The eight category filters partition the input, as multisets. -/
theorem catFilter_partition (as : List CategorizedActivity) :
    ((catFilter .feature as : Multiset CategorizedActivity) +
      catFilter .fix as + catFilter .refactor as + catFilter .docs as +
      catFilter .test as + catFilter .chore as + catFilter .performance as +
      catFilter .security as) = (as : Multiset CategorizedActivity) := by
  induction as with
  | nil => simp [catFilter]
  | cons a rest ih =>
    cases h : a.category <;>
      simp only [catFilter, List.filter_cons, h, decide_eq_true_eq,
        reduceCtorEq, if_true, if_false, decide_True, decide_False,
        ite_true, ite_false] <;>
      simp only [← Multiset.cons_coe, Multiset.add_cons, Multiset.cons_add] <;>
      simp only [catFilter] at ih <;>
      exact congrArg (Multiset.cons a) ih

/-- C5: flattening the result of groupByCategory reconstructs the original
multiset of activities (no item dropped or duplicated), and each category
bucket holds exactly the input's activities of that category, in their
original insertion order. -/
theorem groupByCategory_flatten_multiset (as : List CategorizedActivity) :
    ((flattenGrouped (groupByCategory as) : List CategorizedActivity) :
        Multiset CategorizedActivity) = (as : Multiset CategorizedActivity) ∧
    ∀ c, bucketOf (groupByCategory as) c =
      as.filter (fun a => decide (a.category = c)) := by
  have h1 : (groupByCategory as).feature = catFilter .feature as :=
    bucketOf_groupByCategory as .feature
  have h2 : (groupByCategory as).fix = catFilter .fix as :=
    bucketOf_groupByCategory as .fix
  have h3 : (groupByCategory as).refactor = catFilter .refactor as :=
    bucketOf_groupByCategory as .refactor
  have h4 : (groupByCategory as).docs = catFilter .docs as :=
    bucketOf_groupByCategory as .docs
  have h5 : (groupByCategory as).test = catFilter .test as :=
    bucketOf_groupByCategory as .test
  have h6 : (groupByCategory as).chore = catFilter .chore as :=
    bucketOf_groupByCategory as .chore
  have h7 : (groupByCategory as).performance = catFilter .performance as :=
    bucketOf_groupByCategory as .performance
  have h8 : (groupByCategory as).security = catFilter .security as :=
    bucketOf_groupByCategory as .security
  refine ⟨?_, bucketOf_groupByCategory as⟩
  rw [flattenGrouped, h1, h2, h3, h4, h5, h6, h7, h8]
  simp only [← Multiset.coe_add]
  exact catFilter_partition as

/-- The activity's business description. -/
def descOf (a : CategorizedActivity) : List Char := a.description

/-- C4: the bucket mapping sends feature, performance and security
descriptions to Features, fix descriptions to Fixes, and refactor, docs, test
and chore descriptions to Refactors; over a grouped batch, the three buckets
together hold exactly one entry per activity (the multiset of all bucket
entries equals the multiset of all business descriptions). -/
theorem mapToWeeklySummaryCategories_partition (g : Grouped)
    (as : List CategorizedActivity) :
    (mapToWeeklySummaryCategories g).Features =
        g.feature.map descOf ++ g.performance.map descOf ++
          g.security.map descOf ∧
    (mapToWeeklySummaryCategories g).Fixes = g.fix.map descOf ∧
    (mapToWeeklySummaryCategories g).Refactors =
        g.refactor.map descOf ++ g.docs.map descOf ++ g.test.map descOf ++
          g.chore.map descOf ∧
    (((mapToWeeklySummaryCategories (groupByCategory as)).Features ++
        (mapToWeeklySummaryCategories (groupByCategory as)).Fixes ++
        (mapToWeeklySummaryCategories (groupByCategory as)).Refactors :
        List (List Char)) : Multiset (List Char)) =
      ((as.map descOf : List (List Char)) : Multiset (List Char)) := by
  refine ⟨rfl, rfl, rfl, ?_⟩
  have h1 : (groupByCategory as).feature = catFilter .feature as :=
    bucketOf_groupByCategory as .feature
  have h2 : (groupByCategory as).fix = catFilter .fix as :=
    bucketOf_groupByCategory as .fix
  have h3 : (groupByCategory as).refactor = catFilter .refactor as :=
    bucketOf_groupByCategory as .refactor
  have h4 : (groupByCategory as).docs = catFilter .docs as :=
    bucketOf_groupByCategory as .docs
  have h5 : (groupByCategory as).test = catFilter .test as :=
    bucketOf_groupByCategory as .test
  have h6 : (groupByCategory as).chore = catFilter .chore as :=
    bucketOf_groupByCategory as .chore
  have h7 : (groupByCategory as).performance = catFilter .performance as :=
    bucketOf_groupByCategory as .performance
  have h8 : (groupByCategory as).security = catFilter .security as :=
    bucketOf_groupByCategory as .security
  simp only [mapToWeeklySummaryCategories, h1, h2, h3, h4, h5, h6, h7, h8]
  simp only [← Multiset.coe_add, ← Multiset.map_coe]
  rw [← Multiset.map_add, ← Multiset.map_add, ← Multiset.map_add,
    ← Multiset.map_add, ← Multiset.map_add, ← Multiset.map_add,
    ← Multiset.map_add]
  refine congrArg (Multiset.map descOf) ?_
  rw [← catFilter_partition as]
  abel

/- ## Deduplication and ranking (notionProcessor.deduplicateAndPrioritize) -/

/-- Keep-first exact deduplication: the
`filter((item, index, arr) => arr.indexOf(item) === index)` idiom keeps the
first occurrence of every value, in order. -/
def dedupFirst : List (List Char) → List (List Char)
  | [] => []
  | a :: rest => a :: dedupFirst (rest.filter (fun b => !(b == a)))
termination_by l => l.length
decreasing_by
  exact Nat.lt_succ_of_le (List.length_filter_le _ _)

/-- NotionProcessor.deduplicateAndPrioritize: drop exact duplicates (keeping
first occurrences), drop items whose trimmed length is not greater than 10,
sort by descending length (stably, as the JS comparator `b.length - a.length`
under a stable sort), and take the first 10. -/
def deduplicateAndPrioritize (items : List (List Char)) : List (List Char) :=
  let unique := (dedupFirst items).filter (fun item => decide (10 < (trimL item).length))
  (unique.mergeSort (fun a b => decide (b.length ≤ a.length))).take 10

/-- Membership is preserved by keep-first deduplication. -/
theorem mem_dedupFirst (l : List (List Char)) (s : List Char) :
    s ∈ dedupFirst l ↔ s ∈ l := by
  induction l using dedupFirst.induct with
  | case1 => simp [dedupFirst]
  | case2 a rest ih =>
    rw [dedupFirst]
    constructor
    · intro h
      rcases List.mem_cons.1 h with h | h
      · exact h ▸ List.mem_cons_self _ _
      · rcases List.mem_filter.1 (ih.1 h) with ⟨hm, _⟩
        exact List.mem_cons_of_mem _ hm
    · intro h
      rcases List.mem_cons.1 h with h | h
      · exact h ▸ List.mem_cons_self _ _
      · by_cases hs : s = a
        · exact hs ▸ List.mem_cons_self _ _
        · refine List.mem_cons_of_mem _ (ih.2 (List.mem_filter.2 ⟨h, ?_⟩))
          simp [hs]

/-- Keep-first deduplication yields a duplicate-free list. -/
theorem nodup_dedupFirst (l : List (List Char)) : (dedupFirst l).Nodup := by
  induction l using dedupFirst.induct with
  | case1 => simp [dedupFirst]
  | case2 a rest ih =>
    rw [dedupFirst]
    refine List.nodup_cons.2 ⟨?_, ih⟩
    intro hmem
    rcases List.mem_filter.1 ((mem_dedupFirst _ _).1 hmem) with ⟨_, hne⟩
    simp at hne

/-- C8 counterexample: a 10-character item (so of length at least 10) is
removed, because the source keeps only items whose trimmed length is strictly
greater than 10; the claim says items of length at least 10 are kept. -/
theorem deduplicateAndPrioritize_drops_length_ten :
    (istr "abcdefghij").length = 10 ∧
    deduplicateAndPrioritize [istr "abcdefghij"] = [] := by
  constructor
  · decide
  · have h1 : dedupFirst [istr "abcdefghij"] = [istr "abcdefghij"] := by
      rw [dedupFirst, List.filter_nil, dedupFirst]
    simp only [deduplicateAndPrioritize, h1]
    have h2 : (List.filter (fun item => decide (10 < (trimL item).length))
        [istr "abcdefghij"]) = [] := by decide
    rw [h2, List.mergeSort_nil, List.take_nil]

/-- C8 amended: deduplicateAndPrioritize removes exact duplicates, keeps
exactly the items whose trimmed length is at least 11 (so length-10 items are
dropped), sorts the survivors by descending length, returns at most 10 items,
and — when at most 10 distinct survivors exist — keeps every qualifying item. -/
theorem deduplicateAndPrioritize_spec (items : List (List Char)) :
    (deduplicateAndPrioritize items).length ≤ 10 ∧
    (deduplicateAndPrioritize items).Nodup ∧
    (∀ s ∈ deduplicateAndPrioritize items,
      s ∈ items ∧ 11 ≤ (trimL s).length) ∧
    (deduplicateAndPrioritize items).Pairwise
      (fun a b => b.length ≤ a.length) ∧
    (((dedupFirst items).filter
        (fun item => decide (10 < (trimL item).length))).length ≤ 10 →
      ∀ s ∈ items, 11 ≤ (trimL s).length →
        s ∈ deduplicateAndPrioritize items) := by
  have hnd : (dedupFirst items).Nodup := nodup_dedupFirst items
  have htrans : ∀ a b c : List Char,
      decide (b.length ≤ a.length) = true →
      decide (c.length ≤ b.length) = true →
      decide (c.length ≤ a.length) = true := by
    intro a b c hab hbc
    simp only [decide_eq_true_eq] at *
    omega
  have htotal : ∀ a b : List Char,
      (decide (b.length ≤ a.length) || decide (a.length ≤ b.length)) = true := by
    intro a b
    simp only [Bool.or_eq_true, decide_eq_true_eq]
    omega
  simp only [deduplicateAndPrioritize]
  set unique := (dedupFirst items).filter
    (fun item => decide (10 < (trimL item).length)) with hu
  set sorted := unique.mergeSort (fun a b => decide (b.length ≤ a.length))
    with hsorteq
  have hperm : sorted.Perm unique := by
    rw [hsorteq]
    exact List.mergeSort_perm _ _
  refine ⟨?_, ?_, ?_, ?_, ?_⟩
  · simp [List.length_take]
  · exact (List.take_sublist _ _).nodup (hperm.symm.nodup (hnd.filter _))
  · intro s hs'
    have hmem : s ∈ unique :=
      hperm.mem_iff.1 ((List.take_sublist _ _).subset hs')
    rcases List.mem_filter.1 hmem with ⟨hm, hlen⟩
    refine ⟨(mem_dedupFirst items s).1 hm, ?_⟩
    simpa using hlen
  · have hsorted : sorted.Pairwise
        (fun a b => (decide (b.length ≤ a.length)) = true) := by
      rw [hsorteq]
      exact List.sorted_mergeSort htrans htotal unique
    exact (List.Pairwise.sublist (List.take_sublist _ _) hsorted).imp
      (fun h => by simpa using h)
  · intro hlen s hs hq
    have hmem : s ∈ unique :=
      List.mem_filter.2 ⟨(mem_dedupFirst items s).2 hs, by simpa using hq⟩
    have hmem2 : s ∈ sorted := hperm.mem_iff.2 hmem
    have hlen2 : sorted.length ≤ 10 := by
      rw [hsorteq, List.length_mergeSort]
      exact hlen
    rw [List.take_of_length_le hlen2]
    exact hmem2

/- ## RateLimiter (ai-agent/utils/rateLimiter.ts) -/

/-- The limiter: recorded request timestamps (ms) plus configuration. -/
structure RateLimiter where
  requests : List Int
  maxRequests : Nat
  timeWindow : Int
deriving Repr, DecidableEq

/-- `new RateLimiter(maxRequests, timeWindowMinutes)`: fresh state, window in
milliseconds. -/
def RateLimiter.new (maxRequests : Nat) (timeWindowMinutes : Int) : RateLimiter :=
  { requests := [], maxRequests := maxRequests,
    timeWindow := timeWindowMinutes * 60 * 1000 }

/-- The lazy prune at the start of every operation:
`requests.filter(t => now - t < timeWindow)`. -/
def pruneRequests (now : Int) (rl : RateLimiter) : RateLimiter :=
  { rl with requests :=
      rl.requests.filter (fun τ => decide (now - τ < rl.timeWindow)) }

/-- RateLimiter.canMakeRequest at time `now`: prune, then compare against the
cap.  Returns the answer and the (pruned) state. -/
def canMakeRequest (now : Int) (rl : RateLimiter) : Bool × RateLimiter :=
  let rl' := pruneRequests now rl
  (decide (rl'.requests.length < rl.maxRequests), rl')

/-- The record returned by getUsageStats. -/
structure UsageStats where
  current : Nat
  max : Nat
  remaining : Int
deriving Repr, DecidableEq

/-- RateLimiter.getUsageStats at time `now`: prune, then report. -/
def getUsageStats (now : Int) (rl : RateLimiter) : UsageStats × RateLimiter :=
  let rl' := pruneRequests now rl
  ({ current := rl'.requests.length, max := rl.maxRequests,
     remaining := (rl.maxRequests : Int) - (rl'.requests.length : Int) }, rl')

/-- `Math.min(...requests)` for the nonempty lists on which the source uses it
(the guard `length >= maxRequests` with `maxRequests ≥ 1` makes the list
nonempty; JS would give Infinity on an empty spread). -/
def listMin : List Int → Int
  | [] => 0
  | [τ] => τ
  | τ :: rest => min τ (listMin rest)

/-- RateLimiter.waitForAvailability entered at time `now`; `eps ≥ 0` is the
lag of the final `Date.now()` after the entry (or after the end of the
computed sleep).  Prune; when the cap is reached, sleep
`timeWindow − (now − oldest) + 1000` ms; then push the new timestamp — the
stored list is not re-pruned before the push.  Returns the new state and the
recorded timestamp. -/
def waitForAvailability (now eps : Int) (rl : RateLimiter) : RateLimiter × Int :=
  let pruned := (pruneRequests now rl).requests
  if rl.maxRequests ≤ pruned.length then
    let oldest := listMin pruned
    let waitTime := rl.timeWindow - (now - oldest) + 1000
    let pushTime := now + waitTime + eps
    ({ rl with requests := pruned ++ [pushTime] }, pushTime)
  else
    let pushTime := now + eps
    ({ rl with requests := pruned ++ [pushTime] }, pushTime)

/-- One observable operation of the limiter: the check, the stats read, the
gated record (waitForAvailability), `execute` (which acquires through
waitForAvailability and then runs its function, recording regardless of the
function's outcome), and reset. -/
inductive RLOp where
  | canMake : Int → RLOp
  | stats : Int → RLOp
  | waitAvail : Int → Int → RLOp
  | execute : Int → Int → RLOp
  | reset : RLOp
deriving Repr, DecidableEq

/-- Run a sequence of operations from state `rl`, `t` being the time of the
latest event so far; returns the final state and latest event time. -/
def runOps (rl : RateLimiter) (t : Int) : List RLOp → RateLimiter × Int
  | [] => (rl, t)
  | op :: rest =>
    match op with
    | .reset => runOps { rl with requests := [] } t rest
    | .canMake now => runOps (canMakeRequest now rl).2 now rest
    | .stats now => runOps (getUsageStats now rl).2 now rest
    | .waitAvail now eps =>
      runOps (waitForAvailability now eps rl).1 (waitForAvailability now eps rl).2 rest
    | .execute now eps =>
      runOps (waitForAvailability now eps rl).1 (waitForAvailability now eps rl).2 rest

/-- Well-formed trace: clocks never run backwards and lags are nonnegative. -/
def WFOps (rl : RateLimiter) (t : Int) : List RLOp → Prop
  | [] => True
  | op :: rest =>
    match op with
    | .reset => WFOps { rl with requests := [] } t rest
    | .canMake now => t ≤ now ∧ WFOps (canMakeRequest now rl).2 now rest
    | .stats now => t ≤ now ∧ WFOps (getUsageStats now rl).2 now rest
    | .waitAvail now eps => t ≤ now ∧ 0 ≤ eps ∧
        WFOps (waitForAvailability now eps rl).1 (waitForAvailability now eps rl).2 rest
    | .execute now eps => t ≤ now ∧ 0 ≤ eps ∧
        WFOps (waitForAvailability now eps rl).1 (waitForAvailability now eps rl).2 rest

/-- The number of stored timestamps still inside the trailing window at `t`. -/
def windowCount (reqs : List Int) (w t : Int) : Nat :=
  (reqs.filter (fun τ => decide (t - τ < w))).length

/-- State invariant: all stored timestamps are in the past, and the in-window
count never exceeds the cap. -/
def goodState (rl : RateLimiter) (t : Int) : Prop :=
  (∀ τ ∈ rl.requests, τ ≤ t) ∧
  windowCount rl.requests rl.timeWindow t ≤ rl.maxRequests

/-- Later observation never sees more in-window timestamps (ages only grow). -/
theorem windowCount_antitone (reqs : List Int) (w t tl : Int) (h : t ≤ tl) :
    windowCount reqs w tl ≤ windowCount reqs w t := by
  induction reqs with
  | nil => simp [windowCount]
  | cons a rest ih =>
    simp only [windowCount] at ih ⊢
    rw [List.filter_cons, List.filter_cons]
    by_cases h1 : tl - a < w
    · have h2 : t - a < w := by omega
      simp [h1, h2]
      omega
    · by_cases h2 : t - a < w <;> simp [h1, h2] <;> omega

/-- Generic filter-count bound. -/
theorem windowCount_le_length (reqs : List Int) (w t : Int) :
    windowCount reqs w t ≤ reqs.length :=
  List.length_filter_le _ _

/-- Unfolding listMin on a list of two or more elements. -/
theorem listMin_cons2 (a b : Int) (r : List Int) :
    listMin (a :: b :: r) = min a (listMin (b :: r)) := by
  rw [listMin]
  simp

/-- The minimum of a nonempty list is a member and a lower bound. -/
theorem listMin_mem_le (l : List Int) (hne : l ≠ []) :
    listMin l ∈ l ∧ ∀ τ ∈ l, listMin l ≤ τ := by
  induction l with
  | nil => exact absurd rfl hne
  | cons a rest ih =>
    cases rest with
    | nil => simp [listMin]
    | cons b r2 =>
      rcases ih (by simp) with ⟨hmem, hle⟩
      constructor
      · rw [listMin_cons2]
        rcases le_total a (listMin (b :: r2)) with h | h
        · simp [min_eq_left h]
        · simp only [min_eq_right h]
          exact List.mem_cons_of_mem _ hmem
      · intro τ hτ
        rcases List.mem_cons.1 hτ with h | h
        · rw [listMin_cons2, h]
          exact min_le_left _ _
        · rw [listMin_cons2]
          exact le_trans (min_le_right _ _) (hle τ h)

/-- Pruning at a later time preserves the invariant (and prunes to the
in-window count). -/
theorem goodState_prune (rl : RateLimiter) (t now : Int)
    (h : goodState rl t) (hle : t ≤ now) :
    goodState (pruneRequests now rl) now := by
  rcases h with ⟨hb, hc⟩
  constructor
  · intro τ hτ
    rcases List.mem_filter.1 hτ with ⟨hm, _⟩
    exact le_trans (hb τ hm) hle
  · show windowCount _ rl.timeWindow now ≤ rl.maxRequests
    have heq : windowCount (pruneRequests now rl).requests rl.timeWindow now
        = windowCount rl.requests rl.timeWindow now := by
      simp [windowCount, pruneRequests, List.filter_filter]
    rw [heq]
    exact le_trans (windowCount_antitone _ _ _ _ hle) hc

/-- waitForAvailability preserves the invariant: when the cap is reached the
computed sleep pushes the recording time past the oldest in-window call's
expiry, so the in-window count never exceeds the cap. -/
theorem goodState_wait (rl : RateLimiter) (t now eps : Int)
    (h : goodState rl t) (hle : t ≤ now) (heps : 0 ≤ eps)
    (hmax : 1 ≤ rl.maxRequests) (_hwin : 1 ≤ rl.timeWindow) :
    goodState (waitForAvailability now eps rl).1
        (waitForAvailability now eps rl).2 ∧
    now ≤ (waitForAvailability now eps rl).2 ∧
    (waitForAvailability now eps rl).1.maxRequests = rl.maxRequests ∧
    (waitForAvailability now eps rl).1.timeWindow = rl.timeWindow := by
  rcases h with ⟨hb, hc⟩
  have hlen : ((pruneRequests now rl).requests).length ≤ rl.maxRequests := by
    have heq : ((pruneRequests now rl).requests).length
        = windowCount rl.requests rl.timeWindow now := rfl
    rw [heq]
    exact le_trans (windowCount_antitone _ _ _ _ hle) hc
  have hmemb : ∀ τ ∈ (pruneRequests now rl).requests,
      τ ≤ now ∧ now - τ < rl.timeWindow := by
    intro τ hτ
    rcases List.mem_filter.1 hτ with ⟨hm, hw⟩
    exact ⟨le_trans (hb τ hm) hle, by simpa using hw⟩
  have hwfa : waitForAvailability now eps rl =
      if rl.maxRequests ≤ ((pruneRequests now rl).requests).length then
        ({ rl with requests := (pruneRequests now rl).requests ++
            [now + (rl.timeWindow -
              (now - listMin (pruneRequests now rl).requests) + 1000) + eps] },
          now + (rl.timeWindow -
            (now - listMin (pruneRequests now rl).requests) + 1000) + eps)
      else
        ({ rl with requests := (pruneRequests now rl).requests ++ [now + eps] },
          now + eps) := rfl
  by_cases hif : rl.maxRequests ≤ ((pruneRequests now rl).requests).length
  · have hne : (pruneRequests now rl).requests ≠ [] := by
      intro hempty
      rw [hempty] at hif
      simp at hif
      omega
    obtain ⟨hoin, homin⟩ := listMin_mem_le _ hne
    obtain ⟨hole, hwold⟩ := hmemb _ hoin
    rw [hwfa, if_pos hif]
    set P := (pruneRequests now rl).requests with hP
    set oldest := listMin P with ho
    set pushT := now + (rl.timeWindow - (now - oldest) + 1000) + eps with hpt
    have hpush : now ≤ pushT := by omega
    refine ⟨⟨?_, ?_⟩, hpush, rfl, rfl⟩
    · intro τ hτ
      have hτ2 : τ ∈ P ++ [pushT] := hτ
      rcases List.mem_append.1 hτ2 with hm | hm
      · exact le_trans (hmemb τ hm).1 hpush
      · simp at hm
        omega
    · show windowCount (P ++ [pushT]) rl.timeWindow pushT ≤ rl.maxRequests
      have hsplit : windowCount (P ++ [pushT]) rl.timeWindow pushT =
          windowCount P rl.timeWindow pushT +
          windowCount [pushT] rl.timeWindow pushT := by
        simp [windowCount, List.filter_append]
      have hone : windowCount [pushT] rl.timeWindow pushT ≤ 1 := by
        simp only [windowCount]
        rw [List.filter_cons, List.filter_nil]
        split_ifs <;> simp
      have hstale : ¬ (pushT - oldest < rl.timeWindow) := by omega
      have hlt : windowCount P rl.timeWindow pushT < P.length := by
        refine List.length_filter_lt_length_iff_exists.2 ⟨oldest, hoin, ?_⟩
        simpa using hstale
      rw [hsplit]
      omega
  · rw [hwfa, if_neg hif]
    push_neg at hif
    have hpush : now ≤ now + eps := by omega
    refine ⟨⟨?_, ?_⟩, hpush, rfl, rfl⟩
    · intro τ hτ
      have hτ2 : τ ∈ (pruneRequests now rl).requests ++ [now + eps] := hτ
      rcases List.mem_append.1 hτ2 with hm | hm
      · exact le_trans (hmemb τ hm).1 hpush
      · simp at hm
        omega
    · show windowCount ((pruneRequests now rl).requests ++ [now + eps])
          rl.timeWindow (now + eps) ≤ rl.maxRequests
      have hsplit : windowCount ((pruneRequests now rl).requests ++ [now + eps])
          rl.timeWindow (now + eps) =
          windowCount (pruneRequests now rl).requests rl.timeWindow (now + eps) +
          windowCount [now + eps] rl.timeWindow (now + eps) := by
        simp [windowCount, List.filter_append]
      have hone : windowCount [now + eps] rl.timeWindow (now + eps) ≤ 1 := by
        simp only [windowCount]
        rw [List.filter_cons, List.filter_nil]
        split_ifs <;> simp
      have hsmall := windowCount_le_length (pruneRequests now rl).requests
        rl.timeWindow (now + eps)
      rw [hsplit]
      omega

/-- The invariant holds after any well-formed sequence of limiter operations,
and the configuration never changes. -/
theorem runOps_invariant (ops : List RLOp) (rl : RateLimiter) (t : Int)
    (h : goodState rl t) (hwf : WFOps rl t ops)
    (hmax : 1 ≤ rl.maxRequests) (hwin : 1 ≤ rl.timeWindow) :
    goodState (runOps rl t ops).1 (runOps rl t ops).2 ∧
    (runOps rl t ops).1.maxRequests = rl.maxRequests ∧
    (runOps rl t ops).1.timeWindow = rl.timeWindow := by
  induction ops generalizing rl t with
  | nil => exact ⟨h, rfl, rfl⟩
  | cons op rest ih =>
    cases op with
    | reset =>
      simp only [runOps, WFOps] at hwf ⊢
      refine ih { rl with requests := [] } t ⟨by simp, ?_⟩ hwf hmax hwin
      simp [windowCount]
    | canMake now =>
      simp only [runOps, WFOps] at hwf ⊢
      rcases hwf with ⟨hle, hwf⟩
      exact ih _ now (goodState_prune rl t now h hle) hwf hmax hwin
    | stats now =>
      simp only [runOps, WFOps] at hwf ⊢
      rcases hwf with ⟨hle, hwf⟩
      exact ih _ now (goodState_prune rl t now h hle) hwf hmax hwin
    | waitAvail now eps =>
      simp only [runOps, WFOps] at hwf ⊢
      rcases hwf with ⟨hle, heps, hwf⟩
      obtain ⟨hg, _, hM, hW⟩ := goodState_wait rl t now eps ⟨h.1, h.2⟩ hle heps hmax hwin
      have hres := ih _ _ hg hwf (hM ▸ hmax) (hW ▸ hwin)
      exact ⟨hres.1, hres.2.1.trans hM, hres.2.2.trans hW⟩
    | execute now eps =>
      simp only [runOps, WFOps] at hwf ⊢
      rcases hwf with ⟨hle, heps, hwf⟩
      obtain ⟨hg, _, hM, hW⟩ := goodState_wait rl t now eps ⟨h.1, h.2⟩ hle heps hmax hwin
      have hres := ih _ _ hg hwf (hM ▸ hmax) (hW ▸ hwin)
      exact ⟨hres.1, hres.2.1.trans hM, hres.2.2.trans hW⟩

/-- The limiter state and latest event time after running `ops` from a freshly
constructed limiter. -/
def limiterAfter (maxR : Nat) (winMin t0 : Int) (ops : List RLOp) :
    RateLimiter × Int :=
  runOps (RateLimiter.new maxR winMin) t0 ops

/-- A fresh limiter satisfies the invariant at any time. -/
theorem goodState_new (maxR : Nat) (winMin t0 : Int) :
    goodState (RateLimiter.new maxR winMin) t0 := by
  constructor
  · intro τ hτ
    simp [RateLimiter.new] at hτ
  · simp [RateLimiter.new, windowCount]

/-- C7: after any well-formed sequence of limiter operations on a fresh
limiter with positive configuration, getUsageStats reports `current` equal to
the number of recorded timestamps still inside the trailing window, and
`remaining` equal to `max 0 (maxCalls − current)`; in particular `remaining`
is never negative. -/
theorem getUsageStats_remaining (maxR : Nat) (winMin t0 now : Int)
    (ops : List RLOp) (hmax : 1 ≤ maxR) (hwinMin : 1 ≤ winMin)
    (hwf : WFOps (RateLimiter.new maxR winMin) t0 ops)
    (hnow : (limiterAfter maxR winMin t0 ops).2 ≤ now) :
    ((getUsageStats now (limiterAfter maxR winMin t0 ops).1).1).current
      = windowCount ((limiterAfter maxR winMin t0 ops).1).requests
          ((limiterAfter maxR winMin t0 ops).1).timeWindow now ∧
    ((getUsageStats now (limiterAfter maxR winMin t0 ops).1).1).remaining
      = max 0 ((maxR : Int) -
          (((getUsageStats now (limiterAfter maxR winMin t0 ops).1).1).current : Int)) ∧
    0 ≤ ((getUsageStats now (limiterAfter maxR winMin t0 ops).1).1).remaining := by
  have hwin : 1 ≤ (RateLimiter.new maxR winMin).timeWindow := by
    show (1 : Int) ≤ winMin * 60 * 1000
    omega
  obtain ⟨⟨hbound, hcount⟩, hM, hW⟩ :=
    runOps_invariant ops (RateLimiter.new maxR winMin) t0
      (goodState_new maxR winMin t0) hwf hmax hwin
  have hcur : ((getUsageStats now (limiterAfter maxR winMin t0 ops).1).1).current
      ≤ maxR := by
    show windowCount ((limiterAfter maxR winMin t0 ops).1).requests
        ((limiterAfter maxR winMin t0 ops).1).timeWindow now ≤ maxR
    have h1 := windowCount_antitone ((limiterAfter maxR winMin t0 ops).1).requests
      ((limiterAfter maxR winMin t0 ops).1).timeWindow
      (limiterAfter maxR winMin t0 ops).2 now hnow
    exact le_trans h1 (le_of_le_of_eq hcount hM)
  have hrem : ((getUsageStats now (limiterAfter maxR winMin t0 ops).1).1).remaining
      = (maxR : Int) -
        (((getUsageStats now (limiterAfter maxR winMin t0 ops).1).1).current : Int) := by
    have hM2 : ((limiterAfter maxR winMin t0 ops).1).maxRequests = maxR := hM
    show (((limiterAfter maxR winMin t0 ops).1).maxRequests : Int) - _ = _
    rw [hM2]
    rfl
  have hnn : (0 : Int) ≤ (maxR : Int) -
      (((getUsageStats now (limiterAfter maxR winMin t0 ops).1).1).current : Int) := by
    omega
  refine ⟨rfl, ?_, ?_⟩
  · rw [hrem, max_eq_right hnn]
  · rw [hrem]
    omega

/-- Witness for C7: with the program's configuration (10 calls per 1-minute
window) and two recorded calls, the stats at a later instant report
remaining = 8 ≥ 0. -/
theorem getUsageStats_remaining_w :
    ((getUsageStats 6000
        (limiterAfter 10 1 0 [RLOp.execute 5000 0, RLOp.execute 5001 0]).1).1).remaining
      = 8 ∧
    0 ≤ ((getUsageStats 6000
        (limiterAfter 10 1 0 [RLOp.execute 5000 0, RLOp.execute 5001 0]).1).1).remaining := by
  have hwf : WFOps (RateLimiter.new 10 1) 0
      [RLOp.execute 5000 0, RLOp.execute 5001 0] := by
    simp only [WFOps]
    exact ⟨by decide, by decide, by decide, by decide, trivial⟩
  have h := getUsageStats_remaining 10 1 0 6000
    [RLOp.execute 5000 0, RLOp.execute 5001 0]
    (by norm_num) (by norm_num) hwf (by decide)
  refine ⟨?_, h.2.2⟩
  rw [h.2.1]
  decide

/-- C9: on every reachable limiter state, the observation reads
(canMakeRequest, getUsageStats) leave no timestamp older than the window in
the stored list; the in-window count never exceeds the cap; and
waitForAvailability never rejects — it always records exactly one new call
appended after the prune, at `now + (timeWindow − (now − oldest) + 1000) + eps`
when the in-window count has reached the cap (the computed wait) and at
`now + eps` otherwise. -/
theorem rateWindow_invariant (maxR : Nat) (winMin t0 now eps : Int)
    (ops : List RLOp) (hmax : 1 ≤ maxR) (hwinMin : 1 ≤ winMin)
    (hwf : WFOps (RateLimiter.new maxR winMin) t0 ops)
    (hnow : (limiterAfter maxR winMin t0 ops).2 ≤ now) (heps : 0 ≤ eps) :
    (∀ τ ∈ ((canMakeRequest now (limiterAfter maxR winMin t0 ops).1).2).requests,
        now - τ < ((limiterAfter maxR winMin t0 ops).1).timeWindow) ∧
    (∀ τ ∈ ((getUsageStats now (limiterAfter maxR winMin t0 ops).1).2).requests,
        now - τ < ((limiterAfter maxR winMin t0 ops).1).timeWindow) ∧
    windowCount ((limiterAfter maxR winMin t0 ops).1).requests
        ((limiterAfter maxR winMin t0 ops).1).timeWindow now ≤ maxR ∧
    ((waitForAvailability now eps (limiterAfter maxR winMin t0 ops).1).1).requests
      = (pruneRequests now (limiterAfter maxR winMin t0 ops).1).requests ++
        [(waitForAvailability now eps (limiterAfter maxR winMin t0 ops).1).2] ∧
    (maxR ≤ ((pruneRequests now (limiterAfter maxR winMin t0 ops).1).requests).length →
      (waitForAvailability now eps (limiterAfter maxR winMin t0 ops).1).2
        = now + (((limiterAfter maxR winMin t0 ops).1).timeWindow -
            (now - listMin
              (pruneRequests now (limiterAfter maxR winMin t0 ops).1).requests)
            + 1000) + eps) ∧
    (((pruneRequests now (limiterAfter maxR winMin t0 ops).1).requests).length < maxR →
      (waitForAvailability now eps (limiterAfter maxR winMin t0 ops).1).2
        = now + eps) := by
  have hwin : 1 ≤ (RateLimiter.new maxR winMin).timeWindow := by
    show (1 : Int) ≤ winMin * 60 * 1000
    omega
  obtain ⟨⟨hbound, hcount⟩, hM, hW⟩ :=
    runOps_invariant ops (RateLimiter.new maxR winMin) t0
      (goodState_new maxR winMin t0) hwf hmax hwin
  have hM2 : ((limiterAfter maxR winMin t0 ops).1).maxRequests = maxR := hM
  have hwfa : waitForAvailability now eps (limiterAfter maxR winMin t0 ops).1 =
      if ((limiterAfter maxR winMin t0 ops).1).maxRequests ≤
          ((pruneRequests now (limiterAfter maxR winMin t0 ops).1).requests).length then
        ({ (limiterAfter maxR winMin t0 ops).1 with requests :=
            (pruneRequests now (limiterAfter maxR winMin t0 ops).1).requests ++
            [now + (((limiterAfter maxR winMin t0 ops).1).timeWindow -
              (now - listMin
                (pruneRequests now (limiterAfter maxR winMin t0 ops).1).requests)
              + 1000) + eps] },
          now + (((limiterAfter maxR winMin t0 ops).1).timeWindow -
            (now - listMin
              (pruneRequests now (limiterAfter maxR winMin t0 ops).1).requests)
            + 1000) + eps)
      else
        ({ (limiterAfter maxR winMin t0 ops).1 with requests :=
            (pruneRequests now (limiterAfter maxR winMin t0 ops).1).requests ++
            [now + eps] },
          now + eps) := rfl
  refine ⟨?_, ?_, ?_, ?_, ?_, ?_⟩
  · intro τ hτ
    rcases List.mem_filter.1 hτ with ⟨_, hw⟩
    simpa using hw
  · intro τ hτ
    rcases List.mem_filter.1 hτ with ⟨_, hw⟩
    simpa using hw
  · have h1 := windowCount_antitone ((limiterAfter maxR winMin t0 ops).1).requests
      ((limiterAfter maxR winMin t0 ops).1).timeWindow
      (limiterAfter maxR winMin t0 ops).2 now hnow
    exact le_trans h1 (le_of_le_of_eq hcount hM)
  · by_cases hif : ((limiterAfter maxR winMin t0 ops).1).maxRequests ≤
        ((pruneRequests now (limiterAfter maxR winMin t0 ops).1).requests).length
    · rw [hwfa, if_pos hif]
    · rw [hwfa, if_neg hif]
  · intro h
    have hif : ((limiterAfter maxR winMin t0 ops).1).maxRequests ≤
        ((pruneRequests now (limiterAfter maxR winMin t0 ops).1).requests).length := by
      rw [hM2]
      exact h
    rw [hwfa, if_pos hif]
  · intro h
    have hif : ¬ (((limiterAfter maxR winMin t0 ops).1).maxRequests ≤
        ((pruneRequests now (limiterAfter maxR winMin t0 ops).1).requests).length) := by
      rw [hM2]
      omega
    rw [hwfa, if_neg hif]

/-- Witness for C9: with the program's configuration, after one recorded call
a later waitForAvailability appends exactly one new timestamp to the pruned
list. -/
theorem rateWindow_invariant_w :
    ((waitForAvailability 6000 0 (limiterAfter 10 1 0 [RLOp.execute 5000 0]).1).1).requests
      = (pruneRequests 6000 (limiterAfter 10 1 0 [RLOp.execute 5000 0]).1).requests ++
        [(waitForAvailability 6000 0 (limiterAfter 10 1 0 [RLOp.execute 5000 0]).1).2] := by
  have hwf : WFOps (RateLimiter.new 10 1) 0 [RLOp.execute 5000 0] := by
    simp only [WFOps]
    exact ⟨by decide, by decide, trivial⟩
  exact (rateWindow_invariant 10 1 0 6000 0 [RLOp.execute 5000 0]
    (by norm_num) (by norm_num) hwf (by decide) (by decide)).2.2.2.1

/- ## Totality of call-counting computations -/

/-- A computation that always returns a value (every exception is handled
somewhere inside it). -/
def MTotal {α : Type} (x : M α) : Prop :=
  ∀ k, ∃ a kl, x k = (Except.ok a, kl)

theorem MTotal_pure {α : Type} (a : α) : MTotal (M.pure a) :=
  fun k => ⟨a, k, rfl⟩

theorem MTotal_bind {α β : Type} (x : M α) (f : α → M β)
    (hx : MTotal x) (hf : ∀ a, MTotal (f a)) : MTotal (M.bind x f) := by
  intro k
  obtain ⟨a, kl, hxk⟩ := hx k
  obtain ⟨b, k2, hfk⟩ := hf a kl
  exact ⟨b, k2, by simp [M.bind, hxk, hfk]⟩

/-- try/catch is total whenever the handler is total (the body may throw). -/
theorem MTotal_attempt {α : Type} (body handler : M α)
    (hh : MTotal handler) : MTotal (M.attempt body handler) := by
  intro k
  match hbody : body k with
  | (.ok a, kl) => exact ⟨a, kl, by simp [M.attempt, hbody]⟩
  | (.error e, kl) =>
    obtain ⟨a, k2, hhk⟩ := hh kl
    exact ⟨a, k2, by simp [M.attempt, hbody, hhk]⟩

/-- try/catch is also total whenever the body is total (a rethrowing catch
block is then unreachable). -/
theorem MTotal_attempt_of_body {α : Type} (body handler : M α)
    (hb : MTotal body) : MTotal (M.attempt body handler) := by
  intro k
  obtain ⟨a, kl, hbk⟩ := hb k
  exact ⟨a, kl, by simp [M.attempt, hbk]⟩

theorem MTotal_ite {α : Type} (c : Prop) [Decidable c] (x y : M α)
    (hx : MTotal x) (hy : MTotal y) : MTotal (if c then x else y) := by
  split <;> assumption

theorem MTotal_classifyActivity (o : Oracle) (a : List Char) :
    MTotal (classifyActivity o a) :=
  MTotal_attempt _ _ (MTotal_pure _)

theorem MTotal_classifyActivities (o : Oracle) (activities : List (List Char))
    (source : String) : MTotal (classifyActivities o activities source) := by
  induction activities with
  | nil => exact MTotal_pure _
  | cons a rest ih =>
    exact MTotal_bind _ _ (MTotal_classifyActivity o a)
      (fun _ => MTotal_bind _ _ ih (fun _ => MTotal_pure _))

/- ## JSON parsing (the `JSON.parse` call sites) -/

/-- Decoded JSON values.  Numbers are integers: a reply with a fractional or
exponent number fails this parser and therefore takes the same parse-failure
fallback path an exotic reply would take; no claim depends on numeric values. -/
inductive Json where
  | null : Json
  | bool : Bool → Json
  | num : Int → Json
  | str : List Char → Json
  | arr : List Json → Json
  | obj : List (List Char × Json) → Json
deriving Repr

/-- Skip whitespace. -/
def skipWs (l : List Char) : List Char := l.dropWhile Char.isWhitespace

/-- Parse the remainder of a JSON string literal after the opening quote,
handling the simple escapes. -/
def parseJsonStrChars : List Char → Option (List Char × List Char)
  | [] => none
  | c :: rest =>
    if c = '"' then some ([], rest)
    else if c = '\\' then
      match rest with
      | [] => none
      | e :: rest2 =>
        let dec : Option Char :=
          if e = 'n' then some '\n' else if e = 't' then some '\t'
          else if e = 'r' then some '\r' else if e = '"' then some '"'
          else if e = '\\' then some '\\' else if e = '/' then some '/'
          else none
        match dec with
        | none => none
        | some d =>
          match parseJsonStrChars rest2 with
          | some (s, r) => some (d :: s, r)
          | none => none
    else
      match parseJsonStrChars rest with
      | some (s, r) => some (c :: s, r)
      | none => none

/-- Parse an integer JSON number. -/
def parseJsonInt (l : List Char) : Option (Json × List Char) :=
  let (neg, l2) := if startsWithL l ['-'] then (true, l.drop 1) else (false, l)
  let digits := l2.takeWhile Char.isDigit
  let rest := l2.drop digits.length
  if digits.length = 0 then none
  else
    let bad := match rest with
      | c :: _ => c = '.' || c = 'e' || c = 'E'
      | [] => false
    if bad then none
    else
      let v : Int := digits.foldl (fun acc d => acc * 10 + (d.toNat - 48)) 0
      some (.num (if neg then -v else v), rest)

mutual

/-- Fuel-bounded JSON value parser. -/
def parseJsonVal : Nat → List Char → Option (Json × List Char)
  | 0, _ => none
  | fuel + 1, l =>
    match skipWs l with
    | [] => none
    | c :: rest =>
      if c = 'n' then
        if startsWithL (c :: rest) (istr "null") then
          some (.null, (c :: rest).drop 4)
        else none
      else if c = 't' then
        if startsWithL (c :: rest) (istr "true") then
          some (.bool true, (c :: rest).drop 4)
        else none
      else if c = 'f' then
        if startsWithL (c :: rest) (istr "false") then
          some (.bool false, (c :: rest).drop 5)
        else none
      else if c = '"' then
        match parseJsonStrChars rest with
        | some (s, r) => some (.str s, r)
        | none => none
      else if c = '[' then
        match skipWs rest with
        | ']' :: r2 => some (.arr [], r2)
        | _ =>
          match parseJsonItems fuel rest with
          | some (elems, r2) => some (.arr elems, r2)
          | none => none
      else if c = '\x7b' then
        match skipWs rest with
        | '\x7d' :: r2 => some (.obj [], r2)
        | _ =>
          match parseJsonFields fuel rest with
          | some (fields, r2) => some (.obj fields, r2)
          | none => none
      else parseJsonInt (c :: rest)

/-- One-or-more comma-separated array items, then the closing bracket. -/
def parseJsonItems : Nat → List Char → Option (List Json × List Char)
  | 0, _ => none
  | fuel + 1, l =>
    match parseJsonVal fuel l with
    | none => none
    | some (v, r) =>
      match skipWs r with
      | ',' :: r2 =>
        match parseJsonItems fuel r2 with
        | some (vs, r3) => some (v :: vs, r3)
        | none => none
      | ']' :: r2 => some ([v], r2)
      | _ => none

/-- One-or-more comma-separated object fields, then the closing brace. -/
def parseJsonFields : Nat → List Char →
    Option (List (List Char × Json) × List Char)
  | 0, _ => none
  | fuel + 1, l =>
    match skipWs l with
    | '"' :: rest =>
      match parseJsonStrChars rest with
      | none => none
      | some (name, r) =>
        match skipWs r with
        | ':' :: r2 =>
          match parseJsonVal fuel r2 with
          | none => none
          | some (v, r3) =>
            match skipWs r3 with
            | ',' :: r4 =>
              match parseJsonFields fuel r4 with
              | some (fs, r5) => some ((name, v) :: fs, r5)
              | none => none
            | '\x7d' :: r4 => some ([(name, v)], r4)
            | _ => none
        | _ => none
    | _ => none

end

/-- `JSON.parse`: parse one value and require only whitespace after it. -/
def jsonParse (l : List Char) : Option Json :=
  match parseJsonVal (l.length + 1) l with
  | some (v, rest) => if skipWs rest = [] then some v else none
  | none => none

/- ## Untrusted-reply decoding -/

/-- The element callback `(h) => h && h.trim().length > 0` (and the equivalent
`(f) => f && f.trim()`) on one decoded array element: strings are kept when
they have a nonblank character, falsy values (null, false, 0, the empty
string) are dropped, and calling `.trim()` on any other value throws. -/
def keepNonBlankStr : Json → Except Unit (Option (List Char))
  | .str s =>
    if s = [] then .ok none
    else if 0 < (trimL s).length then .ok (some s) else .ok none
  | .null => .ok none
  | .bool b => if b then .error () else .ok none
  | .num n => if n = 0 then .ok none else .error ()
  | .arr _ => .error ()
  | .obj _ => .error ()

/-- `filter` with the truthy-string callback over decoded array elements. -/
def filterStringArray : List Json → Except Unit (List (List Char))
  | [] => .ok []
  | j :: rest =>
    match keepNonBlankStr j with
    | .error e => .error e
    | .ok none => filterStringArray rest
    | .ok (some s) =>
      match filterStringArray rest with
      | .error e => .error e
      | .ok tail => .ok (s :: tail)

/-- `JSON.parse(text) as string[]` followed by the truthy filter: a parse
failure, a non-array parse (whose `.filter` is not a function) or a throwing
element is an exception for the caller's catch. -/
def parseStringArray (text : List Char) : Except Unit (List (List Char)) :=
  match jsonParse text with
  | some (.arr elems) => filterStringArray elems
  | some _ => .error ()
  | none => .error ()

/-- Reading `value.Field` in JS: throws on null, yields the field on an
object, and is `undefined` (here: none) on anything else. -/
def jsField (j : Json) (name : List Char) : Except Unit (Option Json) :=
  match j with
  | .null => .error ()
  | .obj fields => .ok ((fields.find? (fun p => decide (p.1 = name))).map
      (fun p => p.2))
  | _ => .ok none

/-- One field of Summarizer.validateAndCleanSummary: `Array.isArray` check,
then the truthy filter; non-arrays (including a missing field) become []. -/
def cleanSummaryField (j : Json) (name : List Char) :
    Except Unit (List (List Char)) :=
  match jsField j name with
  | .error e => .error e
  | .ok (some (.arr elems)) => filterStringArray elems
  | .ok _ => .ok []

/-- The WeeklySummary record (ai-agent/types.ts); the source's optional
Highlights/Notes are always filled with lists by every constructor here. -/
structure WeeklySummary where
  Features : List (List Char)
  Fixes : List (List Char)
  Refactors : List (List Char)
  Highlights : List (List Char)
  Notes : List (List Char)
deriving Repr, DecidableEq

/-- Summarizer.validateAndCleanSummary over the decoded reply. -/
def validateAndCleanSummary (j : Json) : Except Unit WeeklySummary :=
  match cleanSummaryField j (istr "Features") with
  | .error e => .error e
  | .ok fe =>
    match cleanSummaryField j (istr "Fixes") with
    | .error e => .error e
    | .ok fi =>
      match cleanSummaryField j (istr "Refactors") with
      | .error e => .error e
      | .ok re =>
        match cleanSummaryField j (istr "Highlights") with
        | .error e => .error e
        | .ok hi =>
          match cleanSummaryField j (istr "Notes") with
          | .error e => .error e
          | .ok no => .ok ⟨fe, fi, re, hi, no⟩

/-- Strip a trailing `\s*` plus three backticks. -/
def stripFenceEnd (l : List Char) : List Char :=
  let r := l.reverse
  if startsWithL r (istr "```") then
    ((r.drop 3).dropWhile Char.isWhitespace).reverse
  else l

/-- The markdown code-fence cleanup applied before JSON.parse. -/
def stripCodeFence (l : List Char) : List Char :=
  if startsWithL l (istr "```json") then
    stripFenceEnd ((l.drop 7).dropWhile Char.isWhitespace)
  else if startsWithL l (istr "```") then
    stripFenceEnd ((l.drop 3).dropWhile Char.isWhitespace)
  else l

/- ## ContentExtractor (notionProcessor) -/

/-- JS truthiness of an optional string (undefined and "" are falsy). -/
def optTruthy (a : Option (List Char)) : Bool :=
  match a with
  | some s => !(s == [])
  | none => false

/-- `content && content.trim().length > 0`. -/
def hasContent (a : Option (List Char)) : Bool :=
  match a with
  | some s => decide (0 < (trimL s).length)
  | none => false

/-- cleanTextContent's `replace(/\s+/g, " ")`: collapse every whitespace run
to one space (the following `\n{3,}` replace is then a no-op). -/
def collapseWs : List Char → List Char
  | [] => []
  | c :: rest =>
    if c.isWhitespace then ' ' :: collapseWs (rest.dropWhile Char.isWhitespace)
    else c :: collapseWs rest
termination_by l => l.length
decreasing_by
  · exact Nat.lt_succ_of_le (List.dropWhile_sublist _).length_le
  · exact Nat.lt_succ_of_le (le_refl _)

/-- NotionProcessor.cleanTextContent. -/
def cleanTextContent (content : List Char) : List Char :=
  trimL (collapseWs content)

/-- Is this a sentence-ending character of the `/[.!?]+/` splitter? -/
def isPunctChar (c : Char) : Bool := c = '.' || c = '!' || c = '?'

/-- `content.split(/[.!?]+/)` (JS semantics, empty fields included).  The
character on which takeWhile stops is a separator character, so the run of
separators is that character plus the following dropWhile. -/
def splitPunct (l : List Char) : List (List Char) :=
  match h : l.drop ((l.takeWhile (fun c => !isPunctChar c)).length) with
  | [] => [l.takeWhile (fun c => !isPunctChar c)]
  | _ :: rest2 =>
    (l.takeWhile (fun c => !isPunctChar c)) ::
      splitPunct (rest2.dropWhile isPunctChar)
termination_by l.length
decreasing_by
  have h1 := (List.dropWhile_sublist (l := rest2) isPunctChar).length_le
  have h2 : rest2.length + 1 ≤ l.length := by
    have h3 := congrArg List.length h
    simp [List.length_drop] at h3
    omega
  omega

/-- Scan sentences in order, keeping those that mention a keyword (the TS
loop pushes the trimmed sentence and breaks when the cap is reached). -/
def keywordScan (keywords : List (List Char)) : Nat → List (List Char) →
    List (List Char)
  | _, [] => []
  | cap, s :: rest =>
    if keywords.any (fun kw => containsSub (toLowerL s) kw) then
      if cap ≤ 1 then [trimL s]
      else trimL s :: keywordScan keywords (cap - 1) rest
    else keywordScan keywords cap rest

def achievementKeywords : List (List Char) :=
  [istr "completed", istr "finished", istr "implemented", istr "created",
   istr "developed", istr "built", istr "delivered", istr "achieved",
   istr "accomplished", istr "solved"]

def insightKeywords : List (List Char) :=
  [istr "discovered", istr "found", istr "realized", istr "learned",
   istr "understood", istr "insight", istr "finding", istr "conclusion",
   istr "observation"]

def learningKeywords : List (List Char) :=
  [istr "learned", istr "studied", istr "mastered", istr "acquired",
   istr "gained", istr "skill", istr "knowledge", istr "concept",
   istr "technique", istr "methodology"]

/-- The sentence pool shared by the three keyword fallbacks. -/
def fallbackSentences (content : List Char) : List (List Char) :=
  (splitPunct content).filter (fun s => decide (10 < (trimL s).length))

def fallbackAchievementExtraction (content : List Char) : List (List Char) :=
  keywordScan achievementKeywords 5 (fallbackSentences content)

def fallbackInsightExtraction (content : List Char) : List (List Char) :=
  keywordScan insightKeywords 3 (fallbackSentences content)

def fallbackLearningExtraction (content : List Char) : List (List Char) :=
  keywordScan learningKeywords 3 (fallbackSentences content)

/-- NotionProcessor.extractAchievements: model call, JSON string-array parse
and truthy filter; keyword fallback on any error. -/
def extractAchievements (o : Oracle) (content : List Char) :
    M (List (List Char)) :=
  if (trimL content).length = 0 then M.pure []
  else
    M.attempt
      (M.bind (modelCall o) (fun text =>
        match parseStringArray (trimL text) with
        | .ok achs => M.pure achs
        | .error _ => M.throw))
      (M.pure (fallbackAchievementExtraction content))

/-- NotionProcessor.extractInsights. -/
def extractInsights (o : Oracle) (content : List Char) :
    M (List (List Char)) :=
  if (trimL content).length = 0 then M.pure []
  else
    M.attempt
      (M.bind (modelCall o) (fun text =>
        match parseStringArray (trimL text) with
        | .ok ins => M.pure ins
        | .error _ => M.throw))
      (M.pure (fallbackInsightExtraction content))

/-- NotionProcessor.extractLearnings. -/
def extractLearnings (o : Oracle) (content : List Char) :
    M (List (List Char)) :=
  if (trimL content).length = 0 then M.pure []
  else
    M.attempt
      (M.bind (modelCall o) (fun text =>
        match parseStringArray (trimL text) with
        | .ok les => M.pure les
        | .error _ => M.throw))
      (M.pure (fallbackLearningExtraction content))

/-- The three extraction lists of a processed content blob (the metadata —
word count, wall-clock timestamp, content type — is not modelled). -/
structure ProcessedContent where
  achievements : List (List Char)
  insights : List (List Char)
  learnings : List (List Char)
deriving Repr, DecidableEq

/-- NotionProcessor.processTextContent: empty input short-circuits; otherwise
clean, run the three extractions, and on any escape fall back to the three
keyword extractions (fallbackProcessing). -/
def processTextContent (o : Oracle) (content : List Char) :
    M ProcessedContent :=
  if (trimL content).length = 0 then M.pure ⟨[], [], []⟩
  else
    let cleaned := cleanTextContent content
    M.attempt
      (M.bind (extractAchievements o cleaned) (fun a =>
        M.bind (extractInsights o cleaned) (fun i =>
          M.bind (extractLearnings o cleaned) (fun le =>
            M.pure ⟨a, i, le⟩))))
      (M.pure ⟨fallbackAchievementExtraction cleaned,
        fallbackInsightExtraction cleaned, fallbackLearningExtraction cleaned⟩)

/-- NotionProcessor.convertToAchievements. -/
def convertToAchievements (p : ProcessedContent) : List (List Char) :=
  dedupFirst (p.achievements ++
    p.insights.map (fun i => istr "Researched and documented " ++ toLowerL i) ++
    p.learnings.map (fun le => istr "Learned and applied " ++ toLowerL le))

/- ## Summarizer -/

def highImpactKeywords : List (List Char) :=
  [istr "major", istr "significant", istr "critical", istr "important",
   istr "milestone", istr "launch", istr "release", istr "performance",
   istr "security", istr "breaking"]

/-- Summarizer.fallbackHighlightExtraction: scan for high-impact keywords,
cleaning each hit, capped at 3. -/
def fallbackHighlightExtraction : Nat → List (List Char) → List (List Char)
  | _, [] => []
  | cap, a :: rest =>
    if highImpactKeywords.any (fun kw => containsSub (toLowerL a) kw) then
      if cap ≤ 1 then [cleanActivityDescription a]
      else cleanActivityDescription a ::
        fallbackHighlightExtraction (cap - 1) rest
    else fallbackHighlightExtraction cap rest

/-- Summarizer.extractHighlights. -/
def extractHighlights (o : Oracle) (allActivities : List (List Char)) :
    M (List (List Char)) :=
  if allActivities.length = 0 then M.pure []
  else
    M.attempt
      (M.bind (modelCall o) (fun text =>
        match parseStringArray (trimL text) with
        | .ok hs => M.pure hs
        | .error _ => M.throw))
      (M.pure (fallbackHighlightExtraction 3 allActivities))

/-- Summarizer.summarizeActivityGroup: null for an empty group, the cleaned
single text (no model call) for a singleton, otherwise one model call with
the first member's cleaned text as fallback. -/
def summarizeActivityGroup (o : Oracle) (activities : List (List Char))
    (_category : List Char) : M (Option (List Char)) :=
  match activities with
  | [] => M.pure none
  | [x] => M.pure (some (cleanActivityDescription x))
  | x :: _ =>
    M.attempt
      (M.bind (modelCall o) (fun text => M.pure (some (trimL text))))
      (M.pure (some (cleanActivityDescription x)))

/-- One step of splitChunksAux below: chunk splitting on
`/\n+|\. |\! |\? |;/` for fallbackContentExtraction. -/
def splitChunksAux : List Char → List Char → List (List Char)
  | [], acc => [acc.reverse]
  | c :: rest, acc =>
    if c = '\n' then
      acc.reverse :: splitChunksAux (rest.dropWhile (fun d => d = '\n')) []
    else if (c = '.' || c = '!' || c = '?') &&
        (match rest with | ' ' :: _ => true | _ => false) then
      acc.reverse :: splitChunksAux (rest.drop 1) []
    else if c = ';' then
      acc.reverse :: splitChunksAux rest []
    else splitChunksAux rest (c :: acc)
termination_by l _ => l.length
decreasing_by
  · exact Nat.lt_succ_of_le (List.dropWhile_sublist _).length_le
  · exact Nat.lt_succ_of_le (by simpa using List.length_drop_le 1 rest)
  · exact Nat.lt_succ_of_le (le_refl _)
  · exact Nat.lt_succ_of_le (le_refl _)

/-- Summarizer.fallbackContentExtraction: split into chunks, trim, keep
chunks longer than 20 characters, first 5, cleaned. -/
def fallbackContentExtraction (content : List Char) : List (List Char) :=
  (((((splitChunksAux content []).map trimL).filter
      (fun ch => decide (20 < ch.length))).take 5).map
    cleanActivityDescription)

/-- Summarizer.extractActivitiesFromContent. -/
def extractActivitiesFromContent (o : Oracle) (content : List Char) :
    M (List (List Char)) :=
  if (trimL content).length = 0 then M.pure []
  else
    M.attempt
      (M.bind (modelCall o) (fun text =>
        match parseStringArray (trimL text) with
        | .ok acts => M.pure acts
        | .error _ => M.throw))
      (M.pure (fallbackContentExtraction content))

/-- Summarizer.fallbackStructuredSummary: classify everything with the
categorizer, map the groups onto the three buckets, and extract highlights. -/
def fallbackStructuredSummary (o : Oracle) (activities : List (List Char)) :
    M WeeklySummary :=
  M.bind (classifyActivities o activities "commit") (fun cas =>
    let mapped := mapToWeeklySummaryCategories (groupByCategory cas)
    M.bind (extractHighlights o activities) (fun hs =>
      M.pure ⟨mapped.Features, mapped.Fixes, mapped.Refactors, hs, []⟩))

/-- Summarizer.generateStructuredSummary: empty input yields the empty
summary; otherwise one model call, code-fence cleanup, JSON parse and
validateAndCleanSummary, with fallbackStructuredSummary on any escape.  (The
prompt-only split of activities into commits and PRs is not modelled.) -/
def generateStructuredSummary (o : Oracle) (activities : List (List Char)) :
    M WeeklySummary :=
  if activities.length = 0 then M.pure ⟨[], [], [], [], []⟩
  else
    M.attempt
      (M.bind (modelCall o) (fun text =>
        let cleanedText := stripCodeFence (trimL text)
        match jsonParse cleanedText with
        | none => M.throw
        | some j =>
          match validateAndCleanSummary j with
          | .error _ => M.throw
          | .ok s => M.pure s))
      (fallbackStructuredSummary o activities)

/-- First truthy of `notionContent || additionalContext || ""`. -/
def firstTruthy (a b : Option (List Char)) : List Char :=
  match a with
  | some s => if s = [] then (match b with | some t => t | none => []) else s
  | none => match b with | some t => t | none => []

/-- Summarizer.createWeeklySummary over already-extracted commit messages and
PR description strings. -/
def createWeeklySummary (o : Oracle)
    (commitMessages prDescriptions : List (List Char))
    (notionContent additionalContext : Option (List Char)) : M WeeklySummary :=
  let allActivities := commitMessages ++ prDescriptions
  M.bind
    (if optTruthy notionContent || optTruthy additionalContext then
      extractActivitiesFromContent o (firstTruthy notionContent additionalContext)
    else M.pure [])
    (fun extra => generateStructuredSummary o (allActivities ++ extra))

/- ## Orchestrator (WeeklyUpdateAIAgent) and the analyze route -/

/-- A pull request as the pipeline consumes it. -/
structure PRData where
  number : Nat
  title : List Char
  body : Option (List Char)
deriving Repr, DecidableEq

/-- Decimal digits of a number (JS template interpolation of a number). -/
def natDigits (n : Nat) : List Char := istr (toString n)

/-- `PR #${pr.number}: ${title}${body ? ` - ${body}` : ""}`. -/
def formatPR (pr : PRData) : List Char :=
  istr "PR #" ++ natDigits pr.number ++ istr ": " ++ pr.title ++
    (match pr.body with
     | some b => if b = [] then [] else istr " - " ++ b
     | none => [])

/-- The GitHub data the fetcher hands to the analysis (commit messages
already projected out of the commit records). -/
structure GitHubData where
  commits : List (List Char)
  pullRequests : List PRData
deriving Repr, DecidableEq

/-- The Orchestrator's input record (the date range feeds only prompt text
and locale-dependent date rendering, so it is not modelled). -/
structure AIAgentInput where
  githubData : GitHubData
  notionContent : Option (List Char)
  additionalContext : Option (List Char)
deriving Repr, DecidableEq

/-- WeeklyUpdateAIAgent.processAllSources: classify commits, PRs, notion
content and additional context, in that order, concatenating the results. -/
def processAllSources (o : Oracle) (input : AIAgentInput) :
    M (List CategorizedActivity) :=
  M.bind
    (if input.githubData.commits.length > 0 then
      classifyActivities o input.githubData.commits "commit"
    else M.pure [])
    (fun commitActs =>
  M.bind
    (if input.githubData.pullRequests.length > 0 then
      classifyActivities o (input.githubData.pullRequests.map formatPR) "pr"
    else M.pure [])
    (fun prActs =>
  M.bind
    (if optTruthy input.notionContent then
      M.bind (processTextContent o (firstTruthy input.notionContent none))
        (fun p => classifyActivities o (convertToAchievements p) "notion")
    else M.pure [])
    (fun notionActs =>
  M.bind
    (if optTruthy input.additionalContext then
      M.bind (processTextContent o (firstTruthy input.additionalContext none))
        (fun p => classifyActivities o (convertToAchievements p) "manual")
    else M.pure [])
    (fun ctxActs =>
  M.pure (commitActs ++ prActs ++ notionActs ++ ctxActs)))))

/-- WeeklyUpdateAIAgent.createComprehensiveSummary: main summary, highlight
merge, and the many-activities note. -/
def createComprehensiveSummary (o : Oracle) (input : AIAgentInput)
    (activities : List CategorizedActivity) : M WeeklySummary :=
  M.bind (createWeeklySummary o input.githubData.commits
      (input.githubData.pullRequests.map formatPR)
      input.notionContent input.additionalContext)
    (fun summary =>
  M.bind (extractHighlights o (activities.map (fun a => a.originalText)))
    (fun highlights =>
      let s1 := if highlights.length > 0 && summary.Highlights.length = 0 then
        { summary with Highlights := highlights } else summary
      let s2 := if activities.length > 10 then
        { s1 with Notes := s1.Notes ++
          [istr "Analyzed " ++ natDigits activities.length ++
           istr " activities across multiple sources including GitHub commits, pull requests, and documentation."] }
        else s1
      M.pure s2))

/-- Per-source confidence weights (JS decimal literals as exact rationals;
the claims never read this value). -/
def sourceWeight (s : String) : ℚ :=
  if s = "commit" then 6 / 10
  else if s = "pr" then 8 / 10
  else if s = "notion" then 7 / 10
  else if s = "manual" then 5 / 10
  else 5 / 10

/-- WeeklyUpdateAIAgent.calculateConfidenceScore. -/
def calculateConfidenceScore (activities : List CategorizedActivity) : Int :=
  if activities.length = 0 then 0
  else
    let base : ℚ := min ((activities.length : ℚ) * 10) 60
    let diversity : ℚ := ((activities.map (fun a => a.source)).dedup.length : ℚ) * 10
    let impactScore : ℚ :=
      ((activities.filter (fun a => decide (a.impact = "high"))).length : ℚ) * 5
    let weightSum : ℚ := (activities.map (fun a => sourceWeight a.source)).sum
    min (round (base + diversity + impactScore + weightSum)) 100

/-- The Orchestrator's output (the wall-clock analysis timestamp is not
modelled). -/
structure AIAgentOutput where
  weeklySummary : WeeklySummary
  categorizedActivities : List CategorizedActivity
  totalActivities : Nat
  confidenceScore : Int

/-- WeeklyUpdateAIAgent.analyzeActivity; its catch block wraps and rethrows,
so it is total exactly when the staged body is. -/
def analyzeActivity (o : Oracle) (input : AIAgentInput) : M AIAgentOutput :=
  M.attempt
    (M.bind (processAllSources o input) (fun acts =>
      M.bind (createComprehensiveSummary o input acts) (fun ws =>
        M.pure ⟨ws, acts, acts.length, calculateConfidenceScore acts⟩)))
    M.throw

/-- The Achievement records returned to the route. -/
structure Achievement where
  id : List Char
  text : List Char
  selected : Bool
  source : List Char
deriving Repr, DecidableEq

/-- The `Date.now()` fragment interpolated into achievement ids, passed in as
an opaque tag. -/
def mkId (prefixTag nowTag : List Char) (idx : Nat) : List Char :=
  prefixTag ++ nowTag ++ istr "-" ++ natDigits idx

/-- The TS code maps parsed array elements straight into achievement records
without inspecting them; a non-string element is carried as a placeholder
rendering (no claim depends on that value). -/
def jsonElemText : Json → List Char
  | .str s => s
  | .null => istr "null"
  | .bool true => istr "true"
  | .bool false => istr "false"
  | .num n => istr (toString n)
  | .arr _ => istr "[array]"
  | .obj _ => istr "[object]"

/-- WeeklyUpdateAIAgent.createBasicFallbackAchievements. -/
def createBasicFallbackAchievements (nowTag : List Char) (gh : GitHubData)
    (additionalContext : Option (List Char)) : List Achievement :=
  let parts : List (List Char) :=
    (if gh.commits.length > 0 then
      [istr "Completed " ++ natDigits gh.commits.length ++
       istr " code commits with various improvements and updates."] else []) ++
    (if gh.pullRequests.length > 0 then
      [istr "Submitted " ++ natDigits gh.pullRequests.length ++
       istr " pull request(s) for code review and integration."] else []) ++
    (if optTruthy additionalContext then
      [istr "Documented research findings and additional project context for team reference."]
     else [])
  let parts := if parts.length = 0 then
    [istr "Maintained ongoing development work and project documentation."]
    else parts
  parts.enum.map (fun p =>
    ⟨mkId (istr "basic-") nowTag p.1, p.2, true, istr "github"⟩)

/-- WeeklyUpdateAIAgent.optimizedSingleCallAnalysis: one comprehensive model
call, fence cleanup, JSON array parse, achievements mapped out; the basic
fallback on any escape.  (PDF files feed only prompt text.) -/
def optimizedSingleCallAnalysis (o : Oracle) (nowTag : List Char)
    (gh : GitHubData) (additionalContext : Option (List Char)) :
    M (List Achievement) :=
  M.attempt
    (M.bind (modelCall o) (fun result =>
      let cleanedText := stripCodeFence (trimL result)
      match jsonParse cleanedText with
      | some (.arr elems) =>
        M.pure ((elems.map jsonElemText).enum.map (fun p =>
          ⟨mkId (istr "ai-optimized-") nowTag p.1, p.2, true, istr "github"⟩))
      | _ => M.throw))
    (M.pure (createBasicFallbackAchievements nowTag gh additionalContext))

/-- WeeklyUpdateAIAgent.quickAnalyze; its catch rethrows. -/
def quickAnalyze (o : Oracle) (nowTag : List Char) (gh : GitHubData)
    (additionalContext : Option (List Char)) : M (List Achievement) :=
  M.attempt (optimizedSingleCallAnalysis o nowTag gh additionalContext) M.throw

/-- lib/ai.ts fallbackAnalysis final-resort achievements. -/
def finalBasicAchievements (nowTag : List Char) (gh : GitHubData)
    (additionalContext : Option (List Char)) : List Achievement :=
  (if gh.commits.length > 0 then
    [⟨mkId (istr "basic-") nowTag 0,
      istr "Completed " ++ natDigits gh.commits.length ++
      istr " code commits with various improvements and fixes.", true,
      istr "github"⟩] else []) ++
  (if gh.pullRequests.length > 0 then
    [⟨mkId (istr "basic-") nowTag 1,
      istr "Submitted " ++ natDigits gh.pullRequests.length ++
      istr " pull request(s) for code review and integration.", true,
      istr "github"⟩] else []) ++
  (if optTruthy additionalContext then
    [⟨mkId (istr "basic-") nowTag 2,
      istr "Documented research findings and additional project context.",
      true, istr "github"⟩] else [])

/-- lib/ai.ts fallbackAnalysis: one direct model call, array parse, mapped
achievements; the final basic achievements on any escape. -/
def fallbackAnalysis (o : Oracle) (nowTag : List Char) (gh : GitHubData)
    (additionalContext : Option (List Char)) : M (List Achievement) :=
  M.attempt
    (M.bind (modelCall o) (fun text =>
      let cleanedText := stripCodeFence (trimL text)
      match jsonParse (trimL cleanedText) with
      | some (.arr elems) =>
        M.pure ((elems.map jsonElemText).enum.map (fun p =>
          ⟨mkId (istr "ai-fallback-") nowTag p.1, p.2, true, istr "github"⟩))
      | _ => M.throw))
    (M.pure (finalBasicAchievements nowTag gh additionalContext))

/-- lib/ai.ts analyzeGitHubActivity: quickAnalyze with fallbackAnalysis as
its catch. -/
def analyzeGitHubActivity (o : Oracle) (nowTag : List Char) (gh : GitHubData)
    (additionalContext : Option (List Char)) : M (List Achievement) :=
  M.attempt (quickAnalyze o nowTag gh additionalContext)
    (fallbackAnalysis o nowTag gh additionalContext)

/-- The literal no-data placeholder text of the analyze route. -/
def noDataText (startDate endDate : List Char) : List Char :=
  istr "No code changes, pull requests, or additional notes were found within the specified timeframe (" ++
  startDate ++ istr " to " ++ endDate ++
  istr "). Consider expanding your date range or checking if there was any repository activity during this period."

/-- api/analyze POST after the GitHub fetch: the no-data check short-circuits
to the single informational achievement; otherwise the AI analysis runs. -/
def analyzePOST (o : Oracle) (nowTag : List Char) (gh : GitHubData)
    (notionContent : Option (List Char)) (startDate endDate : List Char) :
    M (List Achievement) :=
  let hasCommits := gh.commits.length > 0
  let hasPRs := gh.pullRequests.length > 0
  let hasNotionContent := hasContent notionContent
  if ¬hasCommits ∧ ¬hasPRs ∧ hasNotionContent = false then
    M.pure [⟨istr "no-data-found", noDataText startDate endDate, true,
      istr "system"⟩]
  else
    analyzeGitHubActivity o nowTag gh notionContent

/- ## Theorems: C6, C3, C2 -/

/-- Appending a period gives terminal punctuation. -/
theorem endsPunct_append_period (l : List Char) :
    endsPunct (l ++ ['.']) = true := by
  simp [endsPunct, List.getLast?_concat]

/-- The cleaned description always ends with `.`, `!` or `?`. -/
theorem endsPunct_clean (x : List Char) :
    endsPunct (cleanActivityDescription x) = true := by
  simp only [cleanActivityDescription]
  by_cases h : endsPunct (capitalizeL (trimL (stripPRTag (stripTagL techTags x)))) <;>
    simp [h, endsPunct_append_period]

/-- C6: on a singleton group, summarizeActivityGroup makes no model call (the
call counter is untouched and the result is the same under every backend) and
deterministically returns the cleaned variant of the single text, which ends
in terminal punctuation; on the empty group it returns null. -/
theorem summarizeActivityGroup_spec (o o2 : Oracle) (x category : List Char)
    (k : Nat) :
    summarizeActivityGroup o [x] category k
      = (Except.ok (some (cleanActivityDescription x)), k) ∧
    summarizeActivityGroup o [x] category k
      = summarizeActivityGroup o2 [x] category k ∧
    summarizeActivityGroup o [] category k = (Except.ok none, k) ∧
    endsPunct (cleanActivityDescription x) = true :=
  ⟨rfl, rfl, rfl, endsPunct_clean x⟩

/-- C3: with zero commits, zero pull requests and absent-or-blank
supplementary text, the analyze route returns exactly one achievement with id
`no-data-found` whose text is the literal placeholder referencing the
supplied start and end dates, and the call counter is untouched: no model
call is made. -/
theorem analyzePOST_no_data (o : Oracle) (nowTag : List Char) (gh : GitHubData)
    (notionContent : Option (List Char)) (startDate endDate : List Char)
    (k : Nat) (h1 : gh.commits = []) (h2 : gh.pullRequests = [])
    (h3 : hasContent notionContent = false) :
    analyzePOST o nowTag gh notionContent startDate endDate k
      = (Except.ok [⟨istr "no-data-found", noDataText startDate endDate, true,
          istr "system"⟩], k) := by
  simp only [analyzePOST]
  split
  · rfl
  · next hcond => exact absurd (by simp [h1, h2, h3]) hcond

/-- Witness for C3: the short-circuit on a concrete empty request, with a
backend that would throw if it were ever called. -/
theorem analyzePOST_no_data_w :
    analyzePOST (fun _ => Except.error ()) (istr "0") ⟨[], []⟩ none
        (istr "2024-01-01") (istr "2024-01-07") 0
      = (Except.ok [⟨istr "no-data-found",
          noDataText (istr "2024-01-01") (istr "2024-01-07"), true,
          istr "system"⟩], 0) :=
  analyzePOST_no_data (fun _ => Except.error ()) (istr "0") ⟨[], []⟩ none
    (istr "2024-01-01") (istr "2024-01-07") 0 rfl rfl rfl

theorem MTotal_extractAchievements (o : Oracle) (c : List Char) :
    MTotal (extractAchievements o c) := by
  unfold extractAchievements
  exact MTotal_ite _ _ _ (MTotal_pure _) (MTotal_attempt _ _ (MTotal_pure _))

theorem MTotal_extractInsights (o : Oracle) (c : List Char) :
    MTotal (extractInsights o c) := by
  unfold extractInsights
  exact MTotal_ite _ _ _ (MTotal_pure _) (MTotal_attempt _ _ (MTotal_pure _))

theorem MTotal_extractLearnings (o : Oracle) (c : List Char) :
    MTotal (extractLearnings o c) := by
  unfold extractLearnings
  exact MTotal_ite _ _ _ (MTotal_pure _) (MTotal_attempt _ _ (MTotal_pure _))

theorem MTotal_processTextContent (o : Oracle) (c : List Char) :
    MTotal (processTextContent o c) := by
  unfold processTextContent
  exact MTotal_ite _ _ _ (MTotal_pure _) (MTotal_attempt _ _ (MTotal_pure _))

theorem MTotal_extractHighlights (o : Oracle) (acts : List (List Char)) :
    MTotal (extractHighlights o acts) := by
  unfold extractHighlights
  exact MTotal_ite _ _ _ (MTotal_pure _) (MTotal_attempt _ _ (MTotal_pure _))

theorem MTotal_extractActivitiesFromContent (o : Oracle) (c : List Char) :
    MTotal (extractActivitiesFromContent o c) := by
  unfold extractActivitiesFromContent
  exact MTotal_ite _ _ _ (MTotal_pure _) (MTotal_attempt _ _ (MTotal_pure _))

theorem MTotal_fallbackStructuredSummary (o : Oracle)
    (acts : List (List Char)) : MTotal (fallbackStructuredSummary o acts) := by
  unfold fallbackStructuredSummary
  exact MTotal_bind _ _ (MTotal_classifyActivities o acts "commit")
    (fun _ => MTotal_bind _ _ (MTotal_extractHighlights o acts)
      (fun _ => MTotal_pure _))

theorem MTotal_generateStructuredSummary (o : Oracle)
    (acts : List (List Char)) : MTotal (generateStructuredSummary o acts) := by
  unfold generateStructuredSummary
  exact MTotal_ite _ _ _ (MTotal_pure _)
    (MTotal_attempt _ _ (MTotal_fallbackStructuredSummary o acts))

theorem MTotal_createWeeklySummary (o : Oracle)
    (commitMessages prDescriptions : List (List Char))
    (nc ac : Option (List Char)) :
    MTotal (createWeeklySummary o commitMessages prDescriptions nc ac) := by
  unfold createWeeklySummary
  exact MTotal_bind _ _
    (MTotal_ite _ _ _ (MTotal_extractActivitiesFromContent o _) (MTotal_pure _))
    (fun extra => MTotal_generateStructuredSummary o _)

theorem MTotal_processAllSources (o : Oracle) (input : AIAgentInput) :
    MTotal (processAllSources o input) := by
  unfold processAllSources
  refine MTotal_bind _ _
    (MTotal_ite _ _ _ (MTotal_classifyActivities o _ _) (MTotal_pure _))
    (fun _ => ?_)
  refine MTotal_bind _ _
    (MTotal_ite _ _ _ (MTotal_classifyActivities o _ _) (MTotal_pure _))
    (fun _ => ?_)
  refine MTotal_bind _ _
    (MTotal_ite _ _ _
      (MTotal_bind _ _ (MTotal_processTextContent o _)
        (fun _ => MTotal_classifyActivities o _ _))
      (MTotal_pure _))
    (fun _ => ?_)
  refine MTotal_bind _ _
    (MTotal_ite _ _ _
      (MTotal_bind _ _ (MTotal_processTextContent o _)
        (fun _ => MTotal_classifyActivities o _ _))
      (MTotal_pure _))
    (fun _ => ?_)
  exact MTotal_pure _

theorem MTotal_createComprehensiveSummary (o : Oracle) (input : AIAgentInput)
    (acts : List CategorizedActivity) :
    MTotal (createComprehensiveSummary o input acts) := by
  unfold createComprehensiveSummary
  exact MTotal_bind _ _ (MTotal_createWeeklySummary o _ _ _ _)
    (fun _ => MTotal_bind _ _ (MTotal_extractHighlights o _)
      (fun _ => MTotal_pure _))

theorem MTotal_analyzeActivity (o : Oracle) (input : AIAgentInput) :
    MTotal (analyzeActivity o input) := by
  unfold analyzeActivity
  exact MTotal_attempt_of_body _ _
    (MTotal_bind _ _ (MTotal_processAllSources o input)
      (fun acts => MTotal_bind _ _
        (MTotal_createComprehensiveSummary o input acts)
        (fun _ => MTotal_pure _)))

theorem MTotal_quickAnalyze (o : Oracle) (nowTag : List Char)
    (gh : GitHubData) (ac : Option (List Char)) :
    MTotal (quickAnalyze o nowTag gh ac) := by
  unfold quickAnalyze
  exact MTotal_attempt_of_body _ _
    (MTotal_attempt _ _ (MTotal_pure _))

theorem MTotal_analyzeGitHubActivity (o : Oracle) (nowTag : List Char)
    (gh : GitHubData) (ac : Option (List Char)) :
    MTotal (analyzeGitHubActivity o nowTag gh ac) := by
  unfold analyzeGitHubActivity
  exact MTotal_attempt_of_body _ _ (MTotal_quickAnalyze o nowTag gh ac)

/-- C2: for every backend behaviour and every input, analyzeActivity and
quickAnalyze (and the analyzeGitHubActivity wrapper) return a value — no
stage failure (model error, malformed reply, parse failure) escapes to the
caller, because every such failure is absorbed by that stage's fallback
before the Orchestrator's rethrowing catch blocks could see it. -/
theorem orchestrator_never_raises (o : Oracle) (input : AIAgentInput)
    (nowTag : List Char) (gh : GitHubData) (ac : Option (List Char))
    (k : Nat) :
    (∃ out kl, analyzeActivity o input k = (Except.ok out, kl)) ∧
    (∃ achs kl, quickAnalyze o nowTag gh ac k = (Except.ok achs, kl)) ∧
    (∃ achs kl, analyzeGitHubActivity o nowTag gh ac k
      = (Except.ok achs, kl)) :=
  ⟨MTotal_analyzeActivity o input k, MTotal_quickAnalyze o nowTag gh ac k,
   MTotal_analyzeGitHubActivity o nowTag gh ac k⟩

/-- Witness for C8 (amended): a single long item survives deduplication and
is kept in the output. -/
theorem deduplicateAndPrioritize_spec_w :
    (istr "abcdefghijklmnop") ∈ deduplicateAndPrioritize [istr "abcdefghijklmnop"] := by
  have hd : dedupFirst [istr "abcdefghijklmnop"] = [istr "abcdefghijklmnop"] := by
    rw [dedupFirst, List.filter_nil, dedupFirst]
  have h := (deduplicateAndPrioritize_spec [istr "abcdefghijklmnop"]).2.2.2.2
  refine h ?_ _ (List.mem_cons_self _ _) (by decide)
  rw [hd]
  decide
